import Mathlib

/-!
Verification of the X-Ray library's asynchronous reasoning subsystem.

The development shallowly embeds the TypeScript sources:
* `RuleBasedReasoning.ts` — the Explanation Chain (`generateStepReasoning`,
  `getSelectionLabel`, `asCount`), with JavaScript values modelled by `JsonV`
  and thrown `TypeError`s modelled by `Except Unit`;
* `src/xRay/xray.ts` (v3 class) — the Execution Tracker;
* `src/xRay/reasoningQueue.ts` (database-backed class) — the Reasoning Job
  Queue (`enqueue`, `processJob`, `handleJobError`, `isRetryableError`,
  `loadPendingJobs`, `getStatsFromDatabase`);
* `src/xRay/config.ts` — `loadReasoningConfig`;
* `lib/storage.ts` (file-based version) — `saveExecution` upsert.
-/

/-- JavaScript values as seen by the chain: `jsUndefined` is JS `undefined`,
distinct from `null`; objects are ordered key/value lists. -/
inductive JsonV where
  | null : JsonV
  | jsUndefined : JsonV
  | bool : Bool → JsonV
  | num : Int → JsonV
  | str : String → JsonV
  | arr : List JsonV → JsonV
  | obj : List (String × JsonV) → JsonV

namespace JsonV

/-- JS truthiness: `null`/`undefined`/`false`/`0`/`""` are falsy; any
object or array (even empty) is truthy. -/
def truthy : JsonV → Bool
  | .null => false
  | .jsUndefined => false
  | .bool b => b
  | .num n => n != 0
  | .str s => s != ""
  | .arr _ => true
  | .obj _ => true

/-- JS nullish test (`??` and `?.` trigger on these). -/
def nullish : JsonV → Bool
  | .null => true
  | .jsUndefined => true
  | _ => false

/-- JS `a ?? b`. -/
def co (a b : JsonV) : JsonV := if a.nullish then b else a

/-- Property access `v.key` for a `v` known to be non-nullish: objects
look up the first binding, everything else yields `undefined`. -/
def get : JsonV → String → JsonV
  | .obj kvs, k =>
    match kvs.find? (fun kv => kv.1 = k) with
    | some kv => kv.2
    | none => .jsUndefined
  | _, _ => .jsUndefined

/-- `typeof v === "object"` for non-nullish `v` (arrays included). -/
def isObjType : JsonV → Bool
  | .obj _ => true
  | .arr _ => true
  | _ => false

/-- `Array.isArray`. -/
def isArr : JsonV → Bool
  | .arr _ => true
  | _ => false

mutual
/-- JS `String(v)` as used by template-literal interpolation. -/
def jsStr : JsonV → String
  | .null => "null"
  | .jsUndefined => "undefined"
  | .bool b => if b then "true" else "false"
  | .num n => toString n
  | .str s => s
  | .arr xs => jsJoin "," xs
  | .obj _ => "[object Object]"

/-- JS `Array.prototype.join` with the given separator. -/
def jsJoin : String → List JsonV → String
  | _, [] => ""
  | _, [x] => jsElem x
  | sep, x :: y :: xs => jsElem x ++ sep ++ jsJoin sep (y :: xs)

/-- Element stringification inside `join`: nullish elements become `""`. -/
def jsElem : JsonV → String
  | .null => ""
  | .jsUndefined => ""
  | .bool b => if b then "true" else "false"
  | .num n => toString n
  | .str s => s
  | .arr xs => jsJoin "," xs
  | .obj _ => "[object Object]"
end

/-- `Object.keys`: own keys of an object, index strings for arrays and
strings, `[]` for other primitives (never called on nullish values). -/
def jsKeys : JsonV → List String
  | .obj kvs => kvs.map Prod.fst
  | .arr xs => (List.range xs.length).map toString
  | .str s => (List.range s.length).map toString
  | _ => []

end JsonV

/-- `l₁` occurs as a contiguous run inside `l₂` (Boolean version,
used for JS `String.prototype.includes`). -/
def chPrefOf : List Char → List Char → Bool
  | [], _ => true
  | _ :: _, [] => false
  | a :: as, b :: bs => a = b && chPrefOf as bs

def chSubOf (p : List Char) : List Char → Bool
  | [] => chPrefOf p []
  | b :: bs => chPrefOf p (b :: bs) || chSubOf p bs

/-- JS `s.includes(pat)`. -/
def strIncludes (s pat : String) : Bool := chSubOf pat.data s.data

/-- `sub` occurs verbatim inside `s` (propositional form used in
theorem statements). -/
def ContainsStr (s sub : String) : Prop := sub.data <:+: s.data

instance (s sub : String) : Decidable (ContainsStr s sub) := by
  unfold ContainsStr; infer_instance

/-- `step.ts` — the Step record. Timestamps are integers; optional
fields are `Option`/`JsonV.jsUndefined`. -/
structure Step where
  name : String
  input : JsonV
  output : JsonV
  error : Option String
  startedAt : Option Int
  endedAt : Option Int
  durationMs : Option Int
  timestamp : Int
  metadata : JsonV
  reasoning : Option String

namespace Step

/-- JS truthiness of `step.error` (an absent or empty message is falsy). -/
def errTruthy (s : Step) : Bool :=
  match s.error with
  | some e => e != ""
  | none => false

/-- JS truthiness of `step.reasoning`. -/
def reasoningTruthy (s : Step) : Bool :=
  match s.reasoning with
  | some r => r != ""
  | none => false

end Step

/-- `isNumber`/`asCount` from `RuleBasedReasoning.ts`: a number yields
itself, an array its length, anything else `null`. -/
def asCount : JsonV → Option Int
  | .num n => some n
  | .arr xs => some (xs.length : Int)
  | _ => none

/-- `getSelectionLabel` from `RuleBasedReasoning.ts`. -/
def getSelectionLabel (selection : JsonV) : String :=
  if !selection.truthy || !selection.isObjType then "one item"
  else
    match selection.get "label" with
    | .str s => s
    | _ =>
      let nested := ((((selection.get "item").co (selection.get "entity")).co
        (selection.get "target")).co (selection.get "movie")).co (selection.get "product")
      let fromNested : Option String :=
        if nested.truthy && nested.isObjType then
          match nested.get "title" with
          | .str t => some t
          | _ =>
            match nested.get "name" with
            | .str t => some t
            | _ =>
              match nested.get "id" with
              | .str t => some t
              | _ => none
        else none
      match fromNested with
      | some t => t
      | none =>
        match selection.get "title" with
        | .str t => t
        | _ =>
          match selection.get "name" with
          | .str t => t
          | _ =>
            match selection.get "id" with
            | .str t => t
            | _ =>
              match selection.get "asin" with
              | .str t => t
              | _ => "one item"

/-- Tier 0, the error short-circuit string:
`Step "<name>" failed after <durationMs ?? 0>ms with error: <error>`. -/
def errorFormat (step : Step) : String :=
  "Step \"" ++ step.name ++ "\" failed after " ++ toString (step.durationMs.getD 0) ++
    "ms with error: " ++ (step.error.getD "")

/-- Tier 9 / catch fallback:
`Completed "<name>" step in <durationMs ?? 0>ms`. -/
def genericFallback (step : Step) : String :=
  "Completed \"" ++ step.name ++ "\" step in " ++ toString (step.durationMs.getD 0) ++ "ms"

/-- `v?.join(', ')` — nullish gives `none`, an array joins, any other
value throws (`join` is not a function). -/
def optJoin (sep : String) : JsonV → Except Unit (Option String)
  | .null => .ok none
  | .jsUndefined => .ok none
  | .arr xs => .ok (some (JsonV.jsJoin sep xs))
  | _ => .error ()

/-- Tier 1 (`step.name === "apply_filters"` with explicit counts). -/
def tier1 (name : String) (input output : JsonV) : Option String :=
  if name = "apply_filters" then
    let totalEvaluated := (asCount (output.get "total_evaluated")).orElse
      (fun _ => asCount (output.get "evaluated"))
    let passed := asCount (output.get "passed")
    let failed := asCount (output.get "failed")
    match totalEvaluated, passed with
    | some t, some p =>
      let filters := (input.get "filters_applied").co input
      let filterKeys := (JsonV.jsKeys filters).filter (fun k =>
        strIncludes k "rating" || strIncludes k "price" || strIncludes k "review" ||
        strIncludes k "age" || strIncludes k "year" || strIncludes k "score")
      let filterText :=
        if filterKeys.isEmpty then "filters"
        else String.intercalate ", " (filterKeys.map (fun k =>
          k.map (fun c => if c = '_' then ' ' else c)))
      some ("Applied " ++ filterText ++ " → " ++ toString p ++ "/" ++ toString t ++
        " passed (" ++ toString (failed.getD (t - p)) ++ " failed)")
    | _, _ => none
  else none

/-- Tier 2 (themes/keywords extraction for the two named steps); the
`?.join` calls can throw on non-array truthy values. -/
def tier2 (name : String) (input output : JsonV) : Except Unit (Option String) :=
  if (name = "preference_understanding" || name = "keyword_generation") &&
      ((output.get "extracted_themes").truthy || (output.get "keywords").truthy) then
    match optJoin ", " (output.get "extracted_themes") with
    | .error u => .error u
    | .ok t1 =>
      match t1 with
      | some s =>
        let seed := (((input.get "seed_movie").co (input.get "product_title")).co
          (input.get "title")).co (.str "input")
        .ok (some ("Extracted \"" ++ s ++ "\" from \"" ++ seed.jsStr ++ "\""))
      | none =>
        match optJoin ", " (output.get "keywords") with
        | .error u => .error u
        | .ok t2 =>
          let themes := t2.getD "themes"
          let seed := (((input.get "seed_movie").co (input.get "product_title")).co
            (input.get "title")).co (.str "input")
          .ok (some ("Extracted \"" ++ themes ++ "\" from \"" ++ seed.jsStr ++ "\""))
  else .ok none

/-- Tier 3 (explicit evaluation counts). -/
def tier3 (output : JsonV) : Option String :=
  let totalEvaluated := ((asCount (output.get "total_evaluated")).orElse
    (fun _ => asCount (output.get "totalEvaluated"))).orElse
    (fun _ => asCount (output.get "evaluated"))
  let passed := (asCount (output.get "passed")).orElse (fun _ => asCount (output.get "accepted"))
  let failed := (asCount (output.get "failed")).orElse (fun _ => asCount (output.get "rejected"))
  match totalEvaluated with
  | some t =>
    if passed.isSome || failed.isSome then
      let p := passed.getD (t - failed.getD 0)
      let f := failed.getD (t - p)
      some ("Evaluated " ++ toString t ++ " items: " ++ toString p ++ " passed, " ++
        toString f ++ " failed")
    else none
  | none => none

/-- Tier 4 (search / retrieval counts). -/
def tier4 (input output : JsonV) : Option String :=
  let totalResults := ((asCount (output.get "total_results")).orElse
    (fun _ => asCount (output.get "total_found"))).orElse
    (fun _ => asCount (output.get "total"))
  let fetched := ((asCount (output.get "candidates_fetched")).orElse
    (fun _ => asCount (output.get "returned"))).orElse
    (fun _ => asCount (output.get "candidates"))
  match totalResults, fetched with
  | some t, some f =>
    let themesPart : JsonV :=
      match input.get "themes" with
      | .arr xs => .str (JsonV.jsJoin ", " xs)
      | _ => .jsUndefined
    let keywordsPart : JsonV :=
      match input.get "keywords" with
      | .arr xs => .str (JsonV.jsJoin ", " xs)
      | _ => .jsUndefined
    let query := ((((input.get "keyword").co (input.get "query")).co themesPart).co
      keywordsPart).co (.str "query")
    some ("Found " ++ toString t ++ " results for \"" ++ query.jsStr ++ "\", returned " ++
      toString f)
  | _, _ => none

/-- Tier 5 (candidate-count shrinkage). -/
def tier5 (input output : JsonV) : Option String :=
  let inputCandidates := (asCount (input.get "candidates_count")).orElse
    (fun _ => asCount (input.get "candidates"))
  let outputRemaining := ((asCount (output.get "remaining")).orElse
    (fun _ => asCount (output.get "filtered"))).orElse
    (fun _ => asCount (output.get "passed"))
  match inputCandidates, outputRemaining with
  | some x, some y =>
    if x ≠ y then some ("Filtered " ++ toString x ++ " candidates down to " ++ toString y)
    else none
  | _, _ => none

/-- `v === true` (strict equality against the literal). -/
def isTrueV : JsonV → Bool
  | .bool true => true
  | _ => false

/-- `v === false`. -/
def isFalseV : JsonV → Bool
  | .bool false => true
  | _ => false

/-- One evaluation-array element against the accept predicate; a nullish
element throws (property access on `null`/`undefined`). -/
def evalAccept (e : JsonV) : Except Unit Bool :=
  if e.nullish then .error ()
  else .ok (isTrueV (e.get "is_relevant") || isTrueV (e.get "is_competitor") ||
    isTrueV (e.get "passed") || isTrueV (e.get "ok"))

def evalReject (e : JsonV) : Except Unit Bool :=
  if e.nullish then .error ()
  else .ok (isFalseV (e.get "is_relevant") || isFalseV (e.get "is_competitor") ||
    isFalseV (e.get "passed") || isFalseV (e.get "ok"))

/-- `Array.prototype.filter` over a predicate that may throw. -/
def jsFilter (p : JsonV → Except Unit Bool) : List JsonV → Except Unit (List JsonV)
  | [] => .ok []
  | x :: xs =>
    match p x with
    | .error u => .error u
    | .ok b =>
      match jsFilter p xs with
      | .error u => .error u
      | .ok rest => .ok (if b then x :: rest else rest)

/-- Tier 6 (evaluation array classification). -/
def tier6 (output : JsonV) : Except Unit (Option String) :=
  match output.get "evaluations" with
  | .arr evals =>
    match jsFilter evalAccept evals with
    | .error u => .error u
    | .ok accepted =>
      match jsFilter evalReject evals with
      | .error u => .error u
      | .ok rejected =>
        .ok (some ("Evaluated " ++ toString evals.length ++ " candidates: " ++
          toString accepted.length ++ " accepted, " ++ toString rejected.length ++ " rejected"))
  | _ => .ok none

/-- Tier 7 (selection / ranking). -/
def tier7 (output : JsonV) : Option String :=
  if (output.get "selection").truthy then
    let title := getSelectionLabel (output.get "selection")
    let rankedCount := ((asCount (output.get "ranked_candidates")).orElse
      (fun _ => asCount (output.get "rankedItems"))).getD 1
    some ("Selected \"" ++ title ++ "\" as top choice from " ++ toString rankedCount ++
      " candidate(s)")
  else none

/-- Tier 8 (generic size change). -/
def tier8 (input output : JsonV) : Option String :=
  let inSize := ((asCount (input.get "items")).orElse
    (fun _ => asCount (input.get "rows"))).orElse
    (fun _ => match input with | .arr xs => some (xs.length : Int) | _ => none)
  let outSize := ((asCount (output.get "items")).orElse
    (fun _ => asCount (output.get "rows"))).orElse
    (fun _ => match output with | .arr xs => some (xs.length : Int) | _ => none)
  match inSize, outSize with
  | some m, some n =>
    if m ≠ n then some ("Transformed " ++ toString m ++ " items into " ++ toString n ++ " items")
    else none
  | _, _ => none

/-- Lift a non-throwing tier into the thrown-error monad, chaining to
the next tier when it yields nothing. -/
def orTier (a : Except Unit (Option String)) (b : Unit → Except Unit (Option String)) :
    Except Unit (Option String) :=
  match a with
  | .ok none => b ()
  | x => x

/-- The body of `generateStepReasoning`'s `try` block before the LLM
call: error short-circuit then tiers 1–8; `.error` marks a thrown
`TypeError`, `.ok none` means fall through to the LLM tier. -/
def ruleTiers (step : Step) : Except Unit (Option String) :=
  let input := step.input.co (.obj [])
  let output := step.output.co (.obj [])
  if step.errTruthy then .ok (some (errorFormat step))
  else
    orTier (.ok (tier1 step.name input output)) (fun _ =>
    orTier (tier2 step.name input output) (fun _ =>
    orTier (.ok (tier3 output)) (fun _ =>
    orTier (.ok (tier4 input output)) (fun _ =>
    orTier (.ok (tier5 input output)) (fun _ =>
    orTier (tier6 output) (fun _ =>
    orTier (.ok (tier7 output)) (fun _ =>
    .ok (tier8 input output))))))))

/-- `generateStepReasoning` from `RuleBasedReasoning.ts`: the whole
chain, parameterised by the LLM collaborator `llm` (`grokExplainStep`);
`.error` from `llm` models a thrown network/parse error, caught by the
surrounding `catch`, and an empty string falls through `||` to the
generic fallback. -/
def generateStepReasoning (llm : Step → Except Unit String) (step : Step) : String :=
  match ruleTiers step with
  | .ok (some s) => s
  | .ok none =>
    match llm step with
    | .ok s => if s = "" then genericFallback step else s
    | .error _ => genericFallback step
  | .error _ => genericFallback step

/-- The LLM tier is reached exactly when every earlier tier declined
without throwing. -/
def llmInvoked (step : Step) : Bool :=
  match ruleTiers step with
  | .ok none => true
  | _ => false

/-! ## Execution Tracker (`src/xRay/xray.ts`, v3 class) -/

/-- `execution.ts` — the Execution record. -/
structure Execution where
  executionId : String
  startedAt : Int
  endedAt : Option Int
  steps : List Step
  finalOutcome : JsonV
  metadata : JsonV

/-- The mutable state of one `XRay` tracker: the execution under
construction, the insertion-ordered active-steps map, and the list of
step names awaiting reasoning. -/
structure XRayState where
  execution : Execution
  activeSteps : List (String × Step)
  pendingReasoningSteps : List String

/-- `new XRay(executionId, metadata)`. -/
def mkXRay (executionId : String) (metadata : JsonV) (now : Int) : XRayState :=
  { execution :=
      { executionId := executionId
        startedAt := now
        endedAt := none
        steps := []
        finalOutcome := .jsUndefined
        metadata := metadata }
    activeSteps := []
    pendingReasoningSteps := [] }

/-- `Map.set`: replace the first binding in place, else append. -/
def mapSet (m : List (String × Step)) (k : String) (v : Step) : List (String × Step) :=
  match m with
  | [] => [(k, v)]
  | (k', v') :: rest => if k' = k then (k, v) :: rest else (k', v') :: mapSet rest k v

/-- `Map.get`. -/
def mapGet (m : List (String × Step)) (k : String) : Option Step :=
  match m.find? (fun kv => kv.1 = k) with
  | some kv => some kv.2
  | none => none

/-- `Map.delete`: remove the first binding. -/
def mapDelete (m : List (String × Step)) (k : String) : List (String × Step) :=
  match m with
  | [] => []
  | (k', v') :: rest => if k' = k then rest else (k', v') :: mapDelete rest k

/-- `XRay.startStep`. -/
def startStep (s : XRayState) (name : String) (input : JsonV) (metadata : JsonV)
    (now : Int) : XRayState :=
  let step : Step :=
    { name := name, input := input, output := .jsUndefined, error := none,
      startedAt := some now, endedAt := none, durationMs := none, timestamp := now,
      metadata := metadata, reasoning := none }
  { s with activeSteps := mapSet s.activeSteps name step }

/-- `XRay.endStep`: no-op when the name has no active step; otherwise
stamp output/endedAt/durationMs, clear reasoning, append to the
execution's step list, drop from the active map and record the name as
pending reasoning. -/
def endStep (s : XRayState) (name : String) (output : JsonV) (now : Int) : XRayState :=
  match mapGet s.activeSteps name with
  | none => s
  | some st =>
    let st' :=
      { st with
          output := output
          endedAt := some now
          durationMs := some (now - st.startedAt.getD 0)
          reasoning := none }
    { s with
      execution := { s.execution with steps := s.execution.steps ++ [st'] }
      activeSteps := mapDelete s.activeSteps name
      pendingReasoningSteps := s.pendingReasoningSteps ++ [st'.name] }

/-- `XRay.errorStep`: as `endStep` but records `error.message`. -/
def errorStep (s : XRayState) (name : String) (errMsg : String) (now : Int) : XRayState :=
  match mapGet s.activeSteps name with
  | none => s
  | some st =>
    let st' :=
      { st with
          error := some errMsg
          endedAt := some now
          durationMs := some (now - st.startedAt.getD 0)
          reasoning := none }
    { s with
      execution := { s.execution with steps := s.execution.steps ++ [st'] }
      activeSteps := mapDelete s.activeSteps name
      pendingReasoningSteps := s.pendingReasoningSteps ++ [st'.name] }

/-- `XRay.logStep` (v1 compatibility): append directly. -/
def logStep (s : XRayState) (name : String) (input output metadata : JsonV)
    (now : Int) : XRayState :=
  let step : Step :=
    { name := name, input := input, output := output, error := none,
      startedAt := none, endedAt := none, durationMs := none, timestamp := now,
      metadata := metadata, reasoning := none }
  { s with execution := { s.execution with steps := s.execution.steps ++ [step] } }

/-- `XRay.end(finalOutcome)`: stamp `endedAt`, store the outcome and
return the execution. -/
def endExec (s : XRayState) (finalOutcome : JsonV) (now : Int) : Execution :=
  { s.execution with endedAt := some now, finalOutcome := finalOutcome }

/-- One tracker call, for reasoning about arbitrary call sequences. -/
inductive XOp where
  | start (name : String) (input metadata : JsonV) (now : Int)
  | endS (name : String) (output : JsonV) (now : Int)
  | errS (name : String) (errMsg : String) (now : Int)
  | logS (name : String) (input output metadata : JsonV) (now : Int)

def applyOp (s : XRayState) : XOp → XRayState
  | .start name input metadata now => startStep s name input metadata now
  | .endS name output now => endStep s name output now
  | .errS name errMsg now => errorStep s name errMsg now
  | .logS name input output metadata now => logStep s name input output metadata now

def applyOps (s : XRayState) (ops : List XOp) : XRayState := ops.foldl applyOp s

/-- The steps an operation completes (appends to the execution):
nothing for `start` or an unmatched `endStep`/`errorStep`, the finished
step for a matched one, the logged step for `logStep`. -/
def completedBy (s : XRayState) : XOp → List Step
  | .start _ _ _ _ => []
  | .endS name output now =>
    match mapGet s.activeSteps name with
    | none => []
    | some st =>
      [{ st with
           output := output
           endedAt := some now
           durationMs := some (now - st.startedAt.getD 0)
           reasoning := none }]
  | .errS name errMsg now =>
    match mapGet s.activeSteps name with
    | none => []
    | some st =>
      [{ st with
           error := some errMsg
           endedAt := some now
           durationMs := some (now - st.startedAt.getD 0)
           reasoning := none }]
  | .logS name input output metadata now =>
    [{ name := name, input := input, output := output, error := none,
       startedAt := none, endedAt := none, durationMs := none, timestamp := now,
       metadata := metadata, reasoning := none }]

/-- All steps completed by a call sequence, in completion order. -/
def opCompletions : XRayState → List XOp → List Step
  | _, [] => []
  | s, op :: ops => completedBy s op ++ opCompletions (applyOp s op) ops

/-! ## Storage (`lib/storage.ts`, file-based version) -/

/-- Replace the first execution with the same `executionId`, else
append (`findIndex` + assignment / `push`). -/
def upsertExec : List Execution → Execution → List Execution
  | [], e => [e]
  | x :: xs, e =>
    if x.executionId = e.executionId then e :: xs else x :: upsertExec xs e

/-- `saveExecution`: skip invalid executions (missing id or zero
steps), otherwise upsert into the stored list. -/
def saveExecution (store : List Execution) (execution : Execution) : List Execution :=
  if execution.executionId = "" || execution.steps.isEmpty then store
  else upsertExec store execution

/-! ## Configuration (`src/xRay/config.ts`) -/

/-- The environment-derived knobs read by `loadReasoningConfig`
(`XRAY_AUTO_REASONING`, `XRAY_REASONING_CONCURRENCY`,
`XRAY_REASONING_MAX_RETRIES`, `XRAY_REASONING_DEBUG`), with the
`parseInt(... || default)` parsing abstracted to the parsed values. -/
structure EnvConfig where
  autoProcess : Bool
  concurrency : Nat
  maxRetries : Nat
  debug : Bool

structure ReasoningConfig where
  autoProcess : Bool
  concurrency : Nat
  maxRetries : Nat
  retryDelays : List Int
  debug : Bool

/-- `loadReasoningConfig`: the retry-delay ladder is fixed in the code. -/
def loadReasoningConfig (env : EnvConfig) : ReasoningConfig :=
  { autoProcess := env.autoProcess
    concurrency := env.concurrency
    maxRetries := env.maxRetries
    retryDelays := [1000, 2000, 4000, 8000]
    debug := env.debug }

/-! ## Reasoning Job Queue (`src/xRay/reasoningQueue.ts`, database-backed) -/

inductive JobStatus where
  | pending | processing | completed | failed
deriving DecidableEq

/-- An in-memory `ReasoningJob`. -/
structure JobState where
  id : String
  executionId : String
  stepName : String
  attempt : Nat
  status : JobStatus
  createdAt : Int
  startedAt : Option Int
  completedAt : Option Int
  error : Option String
  nextRetryAt : Option Int
deriving DecidableEq

/-- A caught JS error value: its `message`, optional `code`, and its
`String(error)` rendering used when the message is falsy. -/
structure ErrJS where
  message : String
  code : Option String
  asString : String

def errorMessageOf (e : ErrJS) : String :=
  if e.message = "" then e.asString else e.message

def retryablePatterns : List String :=
  ["ECONNRESET", "ETIMEDOUT", "ENOTFOUND", "rate_limit_exceeded",
   "service_unavailable", "timeout", "429", "503", "502"]

/-- `ReasoningQueue.isRetryableError`. -/
def isRetryableError (e : ErrJS) : Bool :=
  retryablePatterns.any (fun pattern =>
    strIncludes (errorMessageOf e) pattern || e.code = some pattern)

/-- Observable storage side effects of one queue routine. -/
inductive Effect where
  | jobDbUpdate (id : String) (status : JobStatus)
  | chainCall (stepName : String)
  | reasoningWrite (executionId stepName reasoning : String)
deriving DecidableEq

/-- `ReasoningQueue.handleJobError`: classify, then either back off and
resubmit (status `pending`, incremented attempt, `nextRetryAt` from the
ladder with `|| 8000` clamping) or finalise as `failed` (with a durable
status write); the returned `Option Int` is the `setTimeout` delay of
the scheduled resubmission, `none` when no resubmission is scheduled. -/
def handleJobError (cfg : ReasoningConfig) (now : Int) (job : JobState) (e : ErrJS) :
    JobState × Option Int × List Effect :=
  let errorMessage := errorMessageOf e
  let j := { job with error := some errorMessage }
  if isRetryableError e && decide (j.attempt < cfg.maxRetries) then
    let delay :=
      match cfg.retryDelays[j.attempt - 1]? with
      | some d => if d = 0 then 8000 else d
      | none => 8000
    ({ j with
         attempt := j.attempt + 1
         status := .pending
         nextRetryAt := some (now + delay) }, some delay, [])
  else
    ({ j with status := .failed, completedAt := some now }, none,
      [.jobDbUpdate j.id .failed])

/-- Iterated failure handling (each element is the clock value at one
failure), keeping only the job state. -/
def failN (cfg : ReasoningConfig) (e : ErrJS) (nows : List Int) (job : JobState) : JobState :=
  nows.foldl (fun j t => (handleJobError cfg t j e).1) job

/-- A job as freshly enqueued / recovered. -/
def initJob (id executionId stepName : String) (createdAt : Int) : JobState :=
  { id := id, executionId := executionId, stepName := stepName, attempt := 1,
    status := .pending, createdAt := createdAt, startedAt := none,
    completedAt := none, error := none, nextRetryAt := none }

/-- `updateStepReasoning` over a functional execution store: set the
named step's reasoning inside the named execution, touching nothing
else. -/
def updateStepReasoning (storage : String → Option Execution)
    (executionId stepName reasoning : String) : String → Option Execution :=
  fun eid =>
    if eid = executionId then
      (storage eid).map (fun ex =>
        { ex with steps := ex.steps.map (fun st =>
            if st.name = stepName then { st with reasoning := some reasoning } else st) })
    else storage eid

/-- `ReasoningQueue.processJob` (database-backed version): mark
`processing` durably, load the execution, find the step, skip when
reasoning already exists, otherwise run the chain, write the reasoning
back and mark `completed` durably.  A missing execution or step throws
and is routed to `handleJobError`.  Returns the updated job, the
updated execution store, the storage effects in order, and the
scheduled resubmission delay if any. -/
def processJob (cfg : ReasoningConfig) (storage : String → Option Execution)
    (chain : Step → String) (now : Int) (job : JobState) :
    JobState × (String → Option Execution) × List Effect × Option Int :=
  let j1 := { job with status := .processing, startedAt := some now }
  let effs := [Effect.jobDbUpdate job.id .processing]
  match storage job.executionId with
  | none =>
    let r := handleJobError cfg now j1
      { message := "Execution " ++ job.executionId ++ " not found", code := none,
        asString := "Error" }
    (r.1, storage, effs ++ r.2.2, r.2.1)
  | some execution =>
    match execution.steps.find? (fun st => st.name = job.stepName) with
    | none =>
      let r := handleJobError cfg now j1
        { message := "Step " ++ job.stepName ++ " not found in execution " ++
            job.executionId, code := none, asString := "Error" }
      (r.1, storage, effs ++ r.2.2, r.2.1)
    | some step =>
      if step.reasoningTruthy then
        ({ j1 with status := .completed, completedAt := some now }, storage, effs, none)
      else
        let reasoning := chain step
        let storage' := updateStepReasoning storage job.executionId job.stepName reasoning
        ({ j1 with status := .completed, completedAt := some now }, storage',
          effs ++ [.chainCall job.stepName,
            .reasoningWrite job.executionId job.stepName reasoning,
            .jobDbUpdate job.id .completed], none)

/-! ## Recovery scan and database-backed enqueue -/

/-- A durable `reasoningJob` row. -/
structure DbJobRow where
  id : String
  executionId : String
  stepName : String
  attempts : Nat
  status : JobStatus
  createdAt : Int
deriving DecidableEq

/-- The in-memory job built from a recovered row (attempt preserved,
status reset to `pending`). -/
def rowToMemJob (r : DbJobRow) : JobState :=
  { id := r.id, executionId := r.executionId, stepName := r.stepName,
    attempt := r.attempts, status := .pending, createdAt := r.createdAt,
    startedAt := none, completedAt := none, error := none, nextRetryAt := none }

/-- `ReasoningQueue.loadPendingJobs`: the one-time recovery scan run by
`getInstance`'s construction — select the rows still `pending` or
`processing` and resubmit each as an in-memory job. -/
def loadPendingJobs (db : List DbJobRow) : List JobState :=
  (db.filter (fun r => r.status = .pending || r.status = .processing)).map rowToMemJob

/-- A durable `execution` row as seen by `enqueue`'s lookup:
user-facing `executionId` and internal primary key `id`. -/
structure DbExecRow where
  executionId : String
  id : String

/-- The post-state of one database-backed `enqueue` call. -/
structure EnqResult where
  jobId : String
  jobs : List (String × JobState)
  scheduled : List String
  dbJobs : List DbJobRow

/-- `ReasoningQueue.enqueue` (database-backed): build the in-memory job,
persist a row only when an execution row with that `executionId`
exists (otherwise the persistence step is skipped), then submit to the
worker pool and return the job id.  `jobId` stands for the fresh
`randomUUID()`. -/
def enqueue (jobs : List (String × JobState)) (scheduled : List String)
    (execRows : List DbExecRow) (dbJobs : List DbJobRow)
    (executionId stepName jobId : String) (now : Int) : EnqResult :=
  let job := initJob jobId executionId stepName now
  let dbJobs' :=
    match execRows.find? (fun r => r.executionId = executionId) with
    | some execRow =>
      dbJobs ++ [{ id := jobId, executionId := execRow.id, stepName := stepName,
                   attempts := 1, status := .pending, createdAt := now }]
    | none => dbJobs
  { jobId := jobId
    jobs := jobs ++ [(jobId, job)]
    scheduled := scheduled ++ [jobId]
    dbJobs := dbJobs' }

structure QueueStats where
  pending : Nat
  processing : Nat
  completed : Nat
  failed : Nat
  totalJobs : Nat
deriving DecidableEq

/-- `ReasoningQueue.getStatsFromDatabase`: counts of durable rows by
status. -/
def getStatsFromDatabase (db : List DbJobRow) : QueueStats :=
  { pending := (db.filter (fun r => r.status = .pending)).length
    processing := (db.filter (fun r => r.status = .processing)).length
    completed := (db.filter (fun r => r.status = .completed)).length
    failed := (db.filter (fun r => r.status = .failed)).length
    totalJobs := db.length }

/-! ## In-memory queue lifecycle as a transition system (for the
status-monotonicity invariant).  Job ids are abstracted to naturals;
`scheduled` holds jobs sitting in the worker pool / retry timers,
`running` the jobs currently inside `processJob`. -/

structure QState where
  jobs : Nat → Option JobState
  scheduled : Finset Nat
  running : Finset Nat

def emptyQState : QState :=
  { jobs := fun _ => none, scheduled := ∅, running := ∅ }

def setJob (s : QState) (id : Nat) (j : JobState) : Nat → Option JobState :=
  fun n => if n = id then some j else s.jobs n

/-- The queue events that mutate job state, as implemented by
`enqueue`, the start of `processJob`, and `processJob`'s three exits
(success or idempotent skip; retryable failure under the retry budget;
fatal or budget-exhausting failure). -/
inductive QStep (cfg : ReasoningConfig) : QState → QState → Prop
  | enqueueJob (s : QState) (id : Nat) (j : JobState)
      (hfresh : s.jobs id = none) (hp : j.status = .pending) :
      QStep cfg s
        { jobs := setJob s id j
          scheduled := insert id s.scheduled
          running := s.running }
  | beginJob (s : QState) (id : Nat) (j : JobState)
      (hs : id ∈ s.scheduled) (hj : s.jobs id = some j) (now : Int) :
      QStep cfg s
        { jobs := setJob s id { j with status := .processing, startedAt := some now }
          scheduled := s.scheduled.erase id
          running := insert id s.running }
  | finishDone (s : QState) (id : Nat) (j : JobState)
      (hr : id ∈ s.running) (hj : s.jobs id = some j) (now : Int) :
      QStep cfg s
        { jobs := setJob s id { j with status := .completed, completedAt := some now }
          scheduled := s.scheduled
          running := s.running.erase id }
  | finishRetry (s : QState) (id : Nat) (j : JobState)
      (hr : id ∈ s.running) (hj : s.jobs id = some j) (e : ErrJS) (now : Int)
      (hretry : isRetryableError e = true) (hbudget : j.attempt < cfg.maxRetries) :
      QStep cfg s
        { jobs := setJob s id ((handleJobError cfg now j e).1)
          scheduled := insert id s.scheduled
          running := s.running.erase id }
  | finishFail (s : QState) (id : Nat) (j : JobState)
      (hr : id ∈ s.running) (hj : s.jobs id = some j) (e : ErrJS) (now : Int)
      (hdead : ¬ (isRetryableError e = true ∧ j.attempt < cfg.maxRetries)) :
      QStep cfg s
        { jobs := setJob s id ((handleJobError cfg now j e).1)
          scheduled := s.scheduled
          running := s.running.erase id }

/-- Scheduled jobs are `pending` and running jobs are `processing`;
this is the structural invariant of the scheduler. -/
def QInv (s : QState) : Prop :=
  (∀ id ∈ s.scheduled, ∃ j, s.jobs id = some j ∧ j.status = .pending) ∧
  (∀ id ∈ s.running, ∃ j, s.jobs id = some j ∧ j.status = .processing)

def JobStatus.terminal : JobStatus → Prop
  | .completed => True
  | .failed => True
  | _ => False

/-! ## Concrete instances used by witnesses and counterexamples -/

def c1WitnessStep : Step :=
  { name := "load_data", input := .obj [], output := .jsUndefined, error := some "boom",
    startedAt := none, endedAt := none, durationMs := some 12, timestamp := 0,
    metadata := .jsUndefined, reasoning := none }

def c1CexStep : Step :=
  { name := "load_data", input := .jsUndefined, output := .jsUndefined, error := some "",
    startedAt := none, endedAt := none, durationMs := some 5, timestamp := 0,
    metadata := .jsUndefined, reasoning := none }

/-- A step whose non-array `extracted_themes` makes tier 2 throw
(`5.join` is not a function). -/
def c2ThrowStep : Step :=
  { name := "preference_understanding", input := .obj [],
    output := .obj [("extracted_themes", .num 5)], error := none,
    startedAt := none, endedAt := none, durationMs := some 7, timestamp := 0,
    metadata := .jsUndefined, reasoning := none }

/-- A step on which no tier matches, so the chain reaches the LLM. -/
def c2PlainStep : Step :=
  { name := "misc", input := .obj [], output := .obj [], error := none,
    startedAt := none, endedAt := none, durationMs := none, timestamp := 0,
    metadata := .jsUndefined, reasoning := none }

/-- The claim's concrete scenario. -/
def c3ScenarioStep : Step :=
  { name := "apply_filters"
    input := .obj [("filters_applied", .obj [("minRating", .num 4)])]
    output := .obj [("total_evaluated", .num 10), ("passed", .num 3), ("failed", .num 7)]
    error := none, startedAt := none, endedAt := none, durationMs := some 20,
    timestamp := 0, metadata := .jsUndefined, reasoning := none }

/-- A non-errored step whose output has `total_evaluated`/`passed`/
`failed` but which the earlier themes-extraction detector captures
first. -/
def c3CexStep : Step :=
  { name := "preference_understanding"
    input := .obj []
    output := .obj [("extracted_themes", .arr [.str "noir"]), ("total_evaluated", .num 10),
      ("passed", .num 3), ("failed", .num 7)]
    error := none, startedAt := none, endedAt := none, durationMs := some 20,
    timestamp := 0, metadata := .jsUndefined, reasoning := none }

def c4Env : EnvConfig := { autoProcess := false, concurrency := 3, maxRetries := 4, debug := false }

def c4Err : ErrJS := { message := "socket timeout", code := none, asString := "Error" }

def c4FatalErr : ErrJS := { message := "Execution e9 not found", code := none, asString := "Error" }

def c5Step : Step :=
  { name := "s1", input := .obj [], output := .obj [], error := none,
    startedAt := none, endedAt := none, durationMs := some 3, timestamp := 0,
    metadata := .jsUndefined, reasoning := some "already explained" }

def c5Exec : Execution :=
  { executionId := "e1", startedAt := 0, endedAt := some 9, steps := [c5Step],
    finalOutcome := .jsUndefined, metadata := .jsUndefined }

def c5Storage : String → Option Execution := fun eid =>
  if eid = "e1" then some c5Exec else none

def c5Job : JobState := initJob "j1" "e1" "s1" 0

def c5Cfg : ReasoningConfig := loadReasoningConfig c4Env

/-- The only status changes a single queue event can make. -/
def ForwardMove (j j' : JobState) : Prop :=
  (j.status = .pending ∧ j'.status = .processing) ∨
  (j.status = .processing ∧
    (j'.status = .completed ∨ j'.status = .failed ∨
      (j'.status = .pending ∧ j'.attempt = j.attempt + 1)))

def c6PendingJob : JobState := initJob "a" "e" "s" 0

def c6DoneJob : JobState := { initJob "b" "e" "s2" 0 with status := .completed }

def c6State : QState :=
  { jobs := fun n => if n = 0 then some c6PendingJob else if n = 1 then some c6DoneJob else none
    scheduled := {0}
    running := ∅ }

def c6Step : QStep c5Cfg c6State
    { jobs := setJob c6State 0
        { c6PendingJob with status := .processing, startedAt := some 5 }
      scheduled := c6State.scheduled.erase 0
      running := insert 0 c6State.running } :=
  QStep.beginJob c6State 0 c6PendingJob (Finset.mem_singleton.mpr rfl) rfl 5

def c7EmptyExec : Execution :=
  { executionId := "run-1", startedAt := 0, endedAt := some 1, steps := [],
    finalOutcome := .jsUndefined, metadata := .jsUndefined }

def c7GoodExec : Execution :=
  { executionId := "run-2", startedAt := 0, endedAt := some 1, steps := [c5Step],
    finalOutcome := .jsUndefined, metadata := .jsUndefined }

def c8Ops : List XOp :=
  [.start "a" (.obj []) .jsUndefined 1,
   .start "b" (.obj []) .jsUndefined 2,
   .endS "a" (.num 7) 3,
   .errS "b" "oops" 4,
   .endS "ghost" (.num 0) 5,
   .start "dangling" (.obj []) .jsUndefined 6]

def c9Row1 : DbJobRow :=
  { id := "r1", executionId := "e", stepName := "s1", attempts := 1
    status := .pending, createdAt := 0 }

def c9Row2 : DbJobRow :=
  { id := "r2", executionId := "e", stepName := "s2", attempts := 3
    status := .processing, createdAt := 0 }

def c9Row3 : DbJobRow :=
  { id := "r3", executionId := "e", stepName := "s3", attempts := 2
    status := .completed, createdAt := 0 }

def c9Row4 : DbJobRow :=
  { id := "r4", executionId := "e", stepName := "s4", attempts := 4
    status := .failed, createdAt := 0 }

def c9Rows : List DbJobRow := [c9Row1, c9Row2, c9Row3, c9Row4]

def c10ExecRows : List DbExecRow := [{ executionId := "other", id := "ix1" }]

/-! ## Queue invariant lemmas -/

theorem setJob_self (s : QState) (id : Nat) (j : JobState) : setJob s id j id = some j := by
  simp [setJob]

theorem setJob_ne (s : QState) (id n : Nat) (j : JobState) (h : n ≠ id) :
    setJob s id j n = s.jobs n := by
  simp [setJob, h]

theorem handleJobError_retryCase (cfg : ReasoningConfig) (now : Int) (job : JobState)
    (e : ErrJS) (h1 : isRetryableError e = true) (h2 : job.attempt < cfg.maxRetries) :
    (handleJobError cfg now job e).1.status = .pending ∧
    (handleJobError cfg now job e).1.attempt = job.attempt + 1 := by
  simp [handleJobError, h1, h2]

theorem handleJobError_failCase (cfg : ReasoningConfig) (now : Int) (job : JobState)
    (e : ErrJS) (h : ¬ (isRetryableError e = true ∧ job.attempt < cfg.maxRetries)) :
    (handleJobError cfg now job e).1.status = .failed ∧
    (handleJobError cfg now job e).2.1 = none := by
  rw [Classical.not_and_iff_or_not_not] at h
  rcases h with h | h
  · simp [handleJobError, Bool.eq_false_iff.mpr h]
  · simp [handleJobError, h]

theorem qjobs_mk (jobs : Nat → Option JobState) (sched run : Finset Nat) (n : Nat) :
    (QState.mk jobs sched run).jobs n = jobs n := rfl

theorem qinv_preserved (cfg : ReasoningConfig) (s t : QState)
    (h : QStep cfg s t) (hinv : QInv s) : QInv t := by
  obtain ⟨hsched, hrun⟩ := hinv
  cases h with
  | enqueueJob id j hfresh hp =>
    constructor
    · intro id' hid'
      rw [qjobs_mk]
      rcases Finset.mem_insert.mp hid' with rfl | hmem
      · exact ⟨j, setJob_self .., hp⟩
      · obtain ⟨j', hj', hst⟩ := hsched id' hmem
        refine ⟨j', ?_, hst⟩
        rw [setJob_ne]
        · exact hj'
        · rintro rfl; rw [hfresh] at hj'; exact Option.noConfusion hj'
    · intro id' hid'
      rw [qjobs_mk]
      obtain ⟨j', hj', hst⟩ := hrun id' hid'
      refine ⟨j', ?_, hst⟩
      rw [setJob_ne]
      · exact hj'
      · rintro rfl; rw [hfresh] at hj'; exact Option.noConfusion hj'
  | beginJob id j hs hj now =>
    constructor
    · intro id' hid'
      rw [qjobs_mk]
      obtain ⟨hne, hmem⟩ := Finset.mem_erase.mp hid'
      obtain ⟨j', hj', hst⟩ := hsched id' hmem
      exact ⟨j', by rw [setJob_ne _ _ _ _ hne]; exact hj', hst⟩
    · intro id' hid'
      rw [qjobs_mk]
      rcases Finset.mem_insert.mp hid' with rfl | hmem
      · exact ⟨_, setJob_self .., rfl⟩
      · obtain ⟨j', hj', hst⟩ := hrun id' hmem
        by_cases hne : id' = id
        · subst hne
          exact ⟨_, setJob_self .., rfl⟩
        · exact ⟨j', by rw [setJob_ne _ _ _ _ hne]; exact hj', hst⟩
  | finishDone id j hr hj now =>
    have hproc : j.status = .processing := by
      obtain ⟨j', hj', hst⟩ := hrun id hr
      rw [hj] at hj'; cases hj'; exact hst
    constructor
    · intro id' hid'
      rw [qjobs_mk]
      obtain ⟨j', hj', hst⟩ := hsched id' hid'
      have hne : id' ≠ id := by
        rintro rfl
        rw [hj] at hj'; cases hj'; rw [hst] at hproc; exact JobStatus.noConfusion hproc
      exact ⟨j', by rw [setJob_ne _ _ _ _ hne]; exact hj', hst⟩
    · intro id' hid'
      rw [qjobs_mk]
      obtain ⟨hne, hmem⟩ := Finset.mem_erase.mp hid'
      obtain ⟨j', hj', hst⟩ := hrun id' hmem
      exact ⟨j', by rw [setJob_ne _ _ _ _ hne]; exact hj', hst⟩
  | finishRetry id j hr hj e now hretry hbudget =>
    constructor
    · intro id' hid'
      rw [qjobs_mk]
      rcases Finset.mem_insert.mp hid' with rfl | hmem
      · exact ⟨_, setJob_self .., (handleJobError_retryCase cfg now j e hretry hbudget).1⟩
      · obtain ⟨j', hj', hst⟩ := hsched id' hmem
        by_cases hne : id' = id
        · subst hne
          exact ⟨_, setJob_self .., (handleJobError_retryCase cfg now j e hretry hbudget).1⟩
        · exact ⟨j', by rw [setJob_ne _ _ _ _ hne]; exact hj', hst⟩
    · intro id' hid'
      rw [qjobs_mk]
      obtain ⟨hne, hmem⟩ := Finset.mem_erase.mp hid'
      obtain ⟨j', hj', hst⟩ := hrun id' hmem
      exact ⟨j', by rw [setJob_ne _ _ _ _ hne]; exact hj', hst⟩
  | finishFail id j hr hj e now hdead =>
    have hproc : j.status = .processing := by
      obtain ⟨j', hj', hst⟩ := hrun id hr
      rw [hj] at hj'; cases hj'; exact hst
    constructor
    · intro id' hid'
      rw [qjobs_mk]
      obtain ⟨j', hj', hst⟩ := hsched id' hid'
      have hne : id' ≠ id := by
        rintro rfl
        rw [hj] at hj'; cases hj'; rw [hst] at hproc; exact JobStatus.noConfusion hproc
      exact ⟨j', by rw [setJob_ne _ _ _ _ hne]; exact hj', hst⟩
    · intro id' hid'
      rw [qjobs_mk]
      obtain ⟨hne, hmem⟩ := Finset.mem_erase.mp hid'
      obtain ⟨j', hj', hst⟩ := hrun id' hmem
      exact ⟨j', by rw [setJob_ne _ _ _ _ hne]; exact hj', hst⟩

theorem terminal_stable_step (cfg : ReasoningConfig) (s t : QState)
    (h : QStep cfg s t) (hinv : QInv s) (id : Nat) (j : JobState)
    (hj : s.jobs id = some j) (hterm : j.status.terminal) : t.jobs id = some j := by
  obtain ⟨hsched, hrun⟩ := hinv
  cases h with
  | enqueueJob id' j' hfresh hp =>
    have hne : id ≠ id' := by
      rintro rfl; rw [hfresh] at hj; exact Option.noConfusion hj
    rw [qjobs_mk, setJob_ne _ _ _ _ hne]; exact hj
  | beginJob id' j' hs hj' now =>
    have hne : id ≠ id' := by
      rintro rfl
      obtain ⟨j'', hj'', hst⟩ := hsched id hs
      rw [hj] at hj''; cases hj''; rw [hst] at hterm; exact hterm.elim
    rw [qjobs_mk, setJob_ne _ _ _ _ hne]; exact hj
  | finishDone id' j' hr hj' now =>
    have hne : id ≠ id' := by
      rintro rfl
      obtain ⟨j'', hj'', hst⟩ := hrun id hr
      rw [hj] at hj''; cases hj''; rw [hst] at hterm; exact hterm.elim
    rw [qjobs_mk, setJob_ne _ _ _ _ hne]; exact hj
  | finishRetry id' j' hr hj' e now hretry hbudget =>
    have hne : id ≠ id' := by
      rintro rfl
      obtain ⟨j'', hj'', hst⟩ := hrun id hr
      rw [hj] at hj''; cases hj''; rw [hst] at hterm; exact hterm.elim
    rw [qjobs_mk, setJob_ne _ _ _ _ hne]; exact hj
  | finishFail id' j' hr hj' e now hdead =>
    have hne : id ≠ id' := by
      rintro rfl
      obtain ⟨j'', hj'', hst⟩ := hrun id hr
      rw [hj] at hj''; cases hj''; rw [hst] at hterm; exact hterm.elim
    rw [qjobs_mk, setJob_ne _ _ _ _ hne]; exact hj

theorem qinv_rtg (cfg : ReasoningConfig) (s t : QState)
    (h : Relation.ReflTransGen (QStep cfg) s t) (hinv : QInv s) : QInv t := by
  induction h with
  | refl => exact hinv
  | tail _ hstep ih => exact qinv_preserved cfg _ _ hstep ih

/-! ## Substring helper -/

theorem containsStr_of_data (s sub : String) (l r : List Char)
    (h : s.data = l ++ sub.data ++ r) : ContainsStr s sub := by
  unfold ContainsStr
  rw [h]
  exact List.infix_append _ _ _

/-! ## C1 -/

/-- **C1** (amended): for every Step whose `error` field holds a
non-empty message, `generateStepReasoning` returns the fixed-format
error string and the LLM tier is never reached, whatever the LLM
collaborator would do. -/
theorem c1_error_short_circuit (llm : Step → Except Unit String) (step : Step)
    (e : String) (he : step.error = some e) (hne : e ≠ "") :
    generateStepReasoning llm step = errorFormat step ∧ llmInvoked step = false := by
  have ht : step.errTruthy = true := by
    simp [Step.errTruthy, he, hne]
  constructor
  · simp [generateStepReasoning, ruleTiers, ht]
  · simp [llmInvoked, ruleTiers, ht]

/-- Witness for C1 at a concrete errored step. -/
theorem c1_witness :
    generateStepReasoning (fun _ => .ok "llm text") c1WitnessStep = errorFormat c1WitnessStep ∧
    llmInvoked c1WitnessStep = false :=
  c1_error_short_circuit (fun _ => .ok "llm text") c1WitnessStep "boom" rfl (by decide)

/-- **C1** counterexample: a Step whose `error` field is set to the
empty string falls past the error tier (JS truthiness), reaches the LLM
tier, and does not return the error-format string. -/
theorem c1_cex :
    c1CexStep.error = some "" ∧ llmInvoked c1CexStep = true ∧
    generateStepReasoning (fun _ => .ok "llm text") c1CexStep ≠ errorFormat c1CexStep := by
  refine ⟨rfl, by decide, by decide⟩

/-! ## C2 -/

/-- **C2**: the chain is total (it always returns a string, by type) and
any exception thrown inside it — by an inner tier or by the LLM
collaborator — is caught and converted to the generic tier-4 fallback
string `Completed "<name>" step in <durationMs>ms`. -/
theorem c2_exceptions_become_fallback (llm : Step → Except Unit String) (step : Step) :
    (ruleTiers step = .error () → generateStepReasoning llm step = genericFallback step) ∧
    (ruleTiers step = .ok none → llm step = .error () →
      generateStepReasoning llm step = genericFallback step) := by
  refine ⟨fun h => ?_, fun h1 h2 => ?_⟩
  · simp [generateStepReasoning, h]
  · simp [generateStepReasoning, h1, h2]

/-- Witness for C2: the throwing step and a failing LLM both land on
the generic fallback. -/
theorem c2_witness :
    generateStepReasoning (fun _ => .ok "unused") c2ThrowStep = genericFallback c2ThrowStep ∧
    generateStepReasoning (fun _ => .error ()) c2PlainStep = genericFallback c2PlainStep :=
  ⟨(c2_exceptions_become_fallback (fun _ => .ok "unused") c2ThrowStep).1 rfl,
   (c2_exceptions_become_fallback (fun _ => .error ()) c2PlainStep).2 rfl rfl⟩

/-! ## C3 -/

theorem tier1_shape (name : String) (input output : JsonV) (t p : Int)
    (hname : name = "apply_filters")
    (hT : asCount (output.get "total_evaluated") = some t)
    (hP : asCount (output.get "passed") = some p) :
    ∃ (a : String) (f : Int), tier1 name input output =
      some ("Applied " ++ a ++ " → " ++ toString p ++ "/" ++ toString t ++
        " passed (" ++ toString f ++ " failed)") := by
  subst hname
  unfold tier1
  rw [hT, hP]
  simp only [Option.orElse, if_true, reduceIte]
  exact ⟨_, _, rfl⟩

theorem tier3_shape (output : JsonV) (t p : Int)
    (hT : asCount (output.get "total_evaluated") = some t)
    (hP : asCount (output.get "passed") = some p) :
    ∃ (f : Int), tier3 output =
      some ("Evaluated " ++ toString t ++ " items: " ++ toString p ++ " passed, " ++
        toString f ++ " failed") := by
  unfold tier3
  rw [hT, hP]
  simp only [Option.orElse, Option.isSome, Bool.true_or, if_true, Option.getD, reduceIte]
  exact ⟨_, rfl⟩

/-- **C3** (amended): for every non-errored Step carrying an explicit
`total_evaluated` count together with a `passed` count in its output,
and not captured by the earlier themes-extraction detector, the
rule-based tiers answer with a string containing both counts verbatim
and the LLM tier is never reached. -/
theorem c3_counts_reported (llm : Step → Except Unit String) (step : Step) (t p : Int)
    (hE : step.errTruthy = false)
    (h2 : tier2 step.name (step.input.co (.obj [])) (step.output.co (.obj [])) = .ok none)
    (hT : asCount ((step.output.co (.obj [])).get "total_evaluated") = some t)
    (hP : asCount ((step.output.co (.obj [])).get "passed") = some p) :
    ContainsStr (generateStepReasoning llm step) (toString t) ∧
    ContainsStr (generateStepReasoning llm step) (toString p) ∧
    llmInvoked step = false := by
  by_cases hname : step.name = "apply_filters"
  · obtain ⟨a, f, h1⟩ :=
      tier1_shape step.name (step.input.co (.obj [])) (step.output.co (.obj [])) t p hname hT hP
    have hRT : ruleTiers step =
        .ok (some ("Applied " ++ a ++ " → " ++ toString p ++ "/" ++ toString t ++
          " passed (" ++ toString f ++ " failed)")) := by
      simp only [ruleTiers, hE, Bool.false_eq_true, if_false, h1, orTier]
    have hgen : generateStepReasoning llm step =
        "Applied " ++ a ++ " → " ++ toString p ++ "/" ++ toString t ++
          " passed (" ++ toString f ++ " failed)" := by
      simp [generateStepReasoning, hRT]
    refine ⟨?_, ?_, ?_⟩
    · refine containsStr_of_data _ _
        ("Applied " ++ a ++ " → " ++ toString p ++ "/").data
        ((" passed (" ++ toString f ++ " failed)").data) ?_
      rw [hgen]
      simp [String.data_append, List.append_assoc]
    · refine containsStr_of_data _ _
        ("Applied " ++ a ++ " → ").data
        (("/" ++ toString t ++ " passed (" ++ toString f ++ " failed)").data) ?_
      rw [hgen]
      simp [String.data_append, List.append_assoc]
    · simp [llmInvoked, hRT]
  · have h1 : tier1 step.name (step.input.co (.obj [])) (step.output.co (.obj [])) = none := by
      simp [tier1, hname]
    obtain ⟨f, h3⟩ := tier3_shape (step.output.co (.obj [])) t p hT hP
    have hRT : ruleTiers step =
        .ok (some ("Evaluated " ++ toString t ++ " items: " ++ toString p ++ " passed, " ++
          toString f ++ " failed")) := by
      simp only [ruleTiers, hE, Bool.false_eq_true, if_false, h1, h2, h3, orTier]
    have hgen : generateStepReasoning llm step =
        "Evaluated " ++ toString t ++ " items: " ++ toString p ++ " passed, " ++
          toString f ++ " failed" := by
      simp [generateStepReasoning, hRT]
    refine ⟨?_, ?_, ?_⟩
    · refine containsStr_of_data _ _ ("Evaluated ").data
        ((" items: " ++ toString p ++ " passed, " ++ toString f ++ " failed").data) ?_
      rw [hgen]
      simp [String.data_append, List.append_assoc]
    · refine containsStr_of_data _ _
        ("Evaluated " ++ toString t ++ " items: ").data
        ((" passed, " ++ toString f ++ " failed").data) ?_
      rw [hgen]
      simp [String.data_append, List.append_assoc]
    · simp [llmInvoked, hRT]

/-- Witness for C3 at the claim's own concrete scenario: the output
contains "10" and "3" and the LLM tier is not reached. -/
theorem c3_witness :
    ContainsStr (generateStepReasoning (fun _ => .error ()) c3ScenarioStep)
      (toString (10 : Int)) ∧
    ContainsStr (generateStepReasoning (fun _ => .error ()) c3ScenarioStep)
      (toString (3 : Int)) ∧
    llmInvoked c3ScenarioStep = false :=
  c3_counts_reported (fun _ => .error ()) c3ScenarioStep 10 3 rfl rfl rfl rfl

/-- **C3** counterexample: this step's output contains the
`passed`/`failed`/`total_evaluated` counts, yet the chain answers with
the themes string, which contains neither count. -/
theorem c3_cex :
    c3CexStep.errTruthy = false ∧
    asCount ((c3CexStep.output.co (.obj [])).get "total_evaluated") = some 10 ∧
    asCount ((c3CexStep.output.co (.obj [])).get "passed") = some 3 ∧
    generateStepReasoning (fun _ => .ok "unused") c3CexStep =
      "Extracted \"noir\" from \"input\"" ∧
    ¬ ContainsStr (generateStepReasoning (fun _ => .ok "unused") c3CexStep)
      (toString (10 : Int)) := by
  refine ⟨rfl, rfl, rfl, rfl, by decide⟩

/-! ## C4 -/

theorem handleJobError_retry_next (cfg : ReasoningConfig) (now : Int) (job : JobState)
    (e : ErrJS) (h1 : isRetryableError e = true) (h2 : job.attempt < cfg.maxRetries) :
    (handleJobError cfg now job e).1.nextRetryAt =
      some (now + (match cfg.retryDelays[job.attempt - 1]? with
        | some d => if d = 0 then 8000 else d
        | none => 8000)) ∧
    (handleJobError cfg now job e).2.1 =
      some (match cfg.retryDelays[job.attempt - 1]? with
        | some d => if d = 0 then 8000 else d
        | none => 8000) := by
  simp [handleJobError, h1, h2]

/-- The code's `retryDelays[i] || 8000` over the fixed ladder equals
lookup-with-default (no ladder entry is `0`). -/
theorem ladder_clamp (k : Nat) :
    (match ([1000, 2000, 4000, 8000] : List Int)[k]? with
      | some d => if d = 0 then 8000 else d
      | none => 8000) = ([1000, 2000, 4000, 8000] : List Int).getD k 8000 := by
  match k with
  | 0 => rfl
  | 1 => rfl
  | 2 => rfl
  | 3 => rfl
  | n + 4 =>
    have h : ([1000, 2000, 4000, 8000] : List Int)[n + 4]? = none := by
      apply List.getElem?_eq_none
      simp
    rw [List.getD_eq_getElem?_getD, h]
    rfl

theorem failN_progress (cfg : ReasoningConfig) (e : ErrJS) (hre : isRetryableError e = true) :
    ∀ (nows : List Int) (j : JobState),
      j.attempt + nows.length ≤ cfg.maxRetries →
      (failN cfg e nows j).attempt = j.attempt + nows.length ∧
      (failN cfg e nows j).status = (if nows.isEmpty then j.status else .pending) := by
  intro nows
  induction nows with
  | nil => intro j _; simp [failN]
  | cons tm ts ih =>
    intro j h
    have hlt : j.attempt < cfg.maxRetries := by
      simp [List.length_cons] at h
      omega
    have hstep := handleJobError_retryCase cfg tm j e hre hlt
    have hrec := ih ((handleJobError cfg tm j e).1) (by rw [hstep.2]; simp at h ⊢; omega)
    have hfold : failN cfg e (tm :: ts) j = failN cfg e ts ((handleJobError cfg tm j e).1) := rfl
    rw [hfold]
    constructor
    · rw [hrec.1, hstep.2]
      simp [List.length_cons]
      omega
    · rw [hrec.2]
      cases ts with
      | nil => simpa [failN] using hstep.1
      | cons a as => simp

/-- **C4**: under the loaded configuration, (i) a job failing
`ns.length + 1` consecutive times with a retryable error while below
`maxRetries` is left `pending` with the attempt counter incremented to
the failure count plus one and `nextRetryAt` equal to the last failure
time plus the ladder entry for that failure (clamped to 8000ms past the
ladder); (ii) a non-retryable error or an exhausted retry budget sets
the job `failed` and schedules no resubmission. -/
theorem c4_retry_ladder (env : EnvConfig) :
    (∀ (e : ErrJS) (ns : List Int) (tm : Int) (id eid sn : String) (c : Int),
      isRetryableError e = true →
      ns.length + 1 < (loadReasoningConfig env).maxRetries →
      (failN (loadReasoningConfig env) e (ns ++ [tm]) (initJob id eid sn c)).status =
          .pending ∧
        (failN (loadReasoningConfig env) e (ns ++ [tm]) (initJob id eid sn c)).attempt =
          ns.length + 2 ∧
        (failN (loadReasoningConfig env) e (ns ++ [tm]) (initJob id eid sn c)).nextRetryAt =
          some (tm + ([1000, 2000, 4000, 8000] : List Int).getD ns.length 8000)) ∧
    (∀ (j : JobState) (e : ErrJS) (now : Int),
      (isRetryableError e = false ∨ (loadReasoningConfig env).maxRetries ≤ j.attempt) →
      (handleJobError (loadReasoningConfig env) now j e).1.status = .failed ∧
        (handleJobError (loadReasoningConfig env) now j e).2.1 = none) := by
  constructor
  · intro e ns tm id eid sn c hre hN
    have hfold : failN (loadReasoningConfig env) e (ns ++ [tm]) (initJob id eid sn c) =
        (handleJobError (loadReasoningConfig env) tm
          (failN (loadReasoningConfig env) e ns (initJob id eid sn c)) e).1 := by
      simp [failN, List.foldl_append]
    have hprog := failN_progress (loadReasoningConfig env) e hre ns (initJob id eid sn c)
      (by simp [initJob]; omega)
    have hattempt : (failN (loadReasoningConfig env) e ns (initJob id eid sn c)).attempt =
        ns.length + 1 := by
      rw [hprog.1]; simp [initJob]; omega
    have hlt : (failN (loadReasoningConfig env) e ns (initJob id eid sn c)).attempt <
        (loadReasoningConfig env).maxRetries := by
      rw [hattempt]; exact hN
    have hretry := handleJobError_retryCase (loadReasoningConfig env) tm
      (failN (loadReasoningConfig env) e ns (initJob id eid sn c)) e hre hlt
    have hnext := handleJobError_retry_next (loadReasoningConfig env) tm
      (failN (loadReasoningConfig env) e ns (initJob id eid sn c)) e hre hlt
    refine ⟨?_, ?_, ?_⟩
    · rw [hfold]; exact hretry.1
    · rw [hfold, hretry.2, hattempt]
    · rw [hfold, hnext.1, hattempt]
      have : ns.length + 1 - 1 = ns.length := by omega
      rw [this]
      have hladder : (loadReasoningConfig env).retryDelays = [1000, 2000, 4000, 8000] := rfl
      rw [hladder, ladder_clamp]
  · intro j e now h
    apply handleJobError_failCase
    rintro ⟨h1, h2⟩
    rcases h with h | h
    · rw [h1] at h; exact Bool.noConfusion h
    · omega

/-- Witness for C4: two retryable failures (at times 0 and 50) leave
the job pending at attempt 3 with `nextRetryAt = 50 + 2000`, and a
fatal error fails a fresh job with no resubmission. -/
theorem c4_witness :
    ((failN (loadReasoningConfig c4Env) c4Err ([0] ++ [50]) (initJob "j" "e" "s" 0)).status =
        .pending ∧
      (failN (loadReasoningConfig c4Env) c4Err ([0] ++ [50]) (initJob "j" "e" "s" 0)).attempt =
        3 ∧
      (failN (loadReasoningConfig c4Env) c4Err ([0] ++ [50]) (initJob "j" "e" "s" 0)).nextRetryAt =
        some (50 + ([1000, 2000, 4000, 8000] : List Int).getD 1 8000)) ∧
    ((handleJobError (loadReasoningConfig c4Env) 7 (initJob "j2" "e" "s" 0) c4FatalErr).1.status =
        .failed ∧
      (handleJobError (loadReasoningConfig c4Env) 7 (initJob "j2" "e" "s" 0) c4FatalErr).2.1 =
        none) :=
  ⟨(c4_retry_ladder c4Env).1 c4Err [0] 50 "j" "e" "s" 0 (by decide) (by decide),
   (c4_retry_ladder c4Env).2 (initJob "j2" "e" "s" 0) c4FatalErr 7 (Or.inl (by decide))⟩

/-! ## C5 -/

/-- **C5** (amended): when the loaded step already has a (truthy)
`reasoning`, `processJob` marks the job `completed` in memory with
`completedAt` set, never invokes the Explanation Chain, never writes
the step's reasoning, and leaves the execution store untouched; the
only storage effect of the call is the initial durable flip of the job
row to `processing`. -/
theorem c5_idempotent_skip (cfg : ReasoningConfig) (storage : String → Option Execution)
    (chain : Step → String) (now : Int) (job : JobState) (execution : Execution) (step : Step)
    (hex : storage job.executionId = some execution)
    (hstep : execution.steps.find? (fun st => st.name = job.stepName) = some step)
    (hreason : step.reasoningTruthy = true) :
    processJob cfg storage chain now job =
      ({ job with status := .completed, startedAt := some now, completedAt := some now },
        storage, [Effect.jobDbUpdate job.id .processing], none) := by
  simp [processJob, hex, hstep, hreason]

/-- Witness for C5 at a concrete already-explained step. -/
theorem c5_witness :
    processJob c5Cfg c5Storage (fun _ => "fresh reasoning") 42 c5Job =
      ({ c5Job with status := .completed, startedAt := some 42, completedAt := some 42 },
        c5Storage, [Effect.jobDbUpdate "j1" .processing], none) :=
  c5_idempotent_skip c5Cfg c5Storage (fun _ => "fresh reasoning") 42 c5Job c5Exec c5Step
    rfl rfl rfl

/-- **C5** counterexample to the claim as stated: even on the
idempotent-skip path, `processJob` performs a durable storage write for
that job — the job row is flipped to `processing` before the check —
so the call does not return "without writing to storage for that job". -/
theorem c5_cex :
    c5Step.reasoningTruthy = true ∧
    (processJob c5Cfg c5Storage (fun _ => "fresh reasoning") 42 c5Job).2.2.1 =
      [Effect.jobDbUpdate "j1" .processing] ∧
    (processJob c5Cfg c5Storage (fun _ => "fresh reasoning") 42 c5Job).2.2.1 ≠ [] := by
  refine ⟨rfl, rfl, by decide⟩

/-! ## C6 -/

theorem setJob_cases (s : QState) (id n : Nat) (j : JobState) (v : JobState)
    (h : setJob s id j n = some v) : (n = id ∧ v = j) ∨ (n ≠ id ∧ s.jobs n = some v) := by
  by_cases hn : n = id
  · subst hn
    rw [setJob_self] at h
    exact Or.inl ⟨rfl, (Option.some.injEq _ _ ▸ h).symm⟩
  · rw [setJob_ne _ _ _ _ hn] at h
    exact Or.inr ⟨hn, h⟩

/-- **C6**: under the scheduler invariant, (i) any single queue event
that changes a job moves it forward — `pending → processing` or
`processing → completed | failed | pending`-with-incremented-attempt —
and (ii) along any sequence of queue events, a job that is `completed`
or `failed` is never changed again. -/
theorem c6_status_forward_only (cfg : ReasoningConfig) :
    (∀ s t : QState, QInv s → QStep cfg s t → ∀ (id : Nat) (j j' : JobState),
      s.jobs id = some j → t.jobs id = some j' → j' ≠ j → ForwardMove j j') ∧
    (∀ s t : QState, QInv s → Relation.ReflTransGen (QStep cfg) s t →
      ∀ (id : Nat) (j : JobState), s.jobs id = some j → j.status.terminal →
        t.jobs id = some j) := by
  constructor
  · intro s t hinv hstep id j j' hj hj' hne
    obtain ⟨hsched, hrun⟩ := hinv
    cases hstep with
    | enqueueJob id0 j0 hfresh hp =>
      rw [qjobs_mk] at hj'
      rcases setJob_cases s id0 id j0 j' hj' with ⟨rfl, rfl⟩ | ⟨_, heq⟩
      · rw [hfresh] at hj; exact absurd hj (by simp)
      · rw [heq] at hj; cases hj; exact absurd rfl hne
    | beginJob id0 j0 hs hj0 now =>
      rw [qjobs_mk] at hj'
      rcases setJob_cases s id0 id _ j' hj' with ⟨rfl, rfl⟩ | ⟨_, heq⟩
      · rw [hj0] at hj; cases hj
        obtain ⟨jx, hjx, hst⟩ := hsched id hs
        rw [hj0] at hjx; cases hjx
        exact Or.inl ⟨hst, rfl⟩
      · rw [heq] at hj; cases hj; exact absurd rfl hne
    | finishDone id0 j0 hr hj0 now =>
      rw [qjobs_mk] at hj'
      rcases setJob_cases s id0 id _ j' hj' with ⟨rfl, rfl⟩ | ⟨_, heq⟩
      · rw [hj0] at hj; cases hj
        obtain ⟨jx, hjx, hst⟩ := hrun id hr
        rw [hj0] at hjx; cases hjx
        exact Or.inr ⟨hst, Or.inl rfl⟩
      · rw [heq] at hj; cases hj; exact absurd rfl hne
    | finishRetry id0 j0 hr hj0 e now hretry hbudget =>
      rw [qjobs_mk] at hj'
      rcases setJob_cases s id0 id _ j' hj' with ⟨rfl, rfl⟩ | ⟨_, heq⟩
      · rw [hj0] at hj; cases hj
        obtain ⟨jx, hjx, hst⟩ := hrun id hr
        rw [hj0] at hjx; cases hjx
        have hc := handleJobError_retryCase cfg now j e hretry hbudget
        exact Or.inr ⟨hst, Or.inr (Or.inr ⟨hc.1, hc.2⟩)⟩
      · rw [heq] at hj; cases hj; exact absurd rfl hne
    | finishFail id0 j0 hr hj0 e now hdead =>
      rw [qjobs_mk] at hj'
      rcases setJob_cases s id0 id _ j' hj' with ⟨rfl, rfl⟩ | ⟨_, heq⟩
      · rw [hj0] at hj; cases hj
        obtain ⟨jx, hjx, hst⟩ := hrun id hr
        rw [hj0] at hjx; cases hjx
        have hc := handleJobError_failCase cfg now j e hdead
        exact Or.inr ⟨hst, Or.inr (Or.inl hc.1)⟩
      · rw [heq] at hj; cases hj; exact absurd rfl hne
  · intro s t hinv hrtg id j hj hterm
    induction hrtg with
    | refl => exact hj
    | tail hsteps hstep ih =>
      exact terminal_stable_step cfg _ _ hstep (qinv_rtg cfg _ _ hsteps hinv) id j ih hterm

theorem c6StateInv : QInv c6State := by
  constructor
  · intro id hid
    have h0 : id = 0 := Finset.mem_singleton.mp hid
    subst h0
    exact ⟨c6PendingJob, rfl, rfl⟩
  · intro id hid
    exact absurd hid (Finset.not_mem_empty id)

/-- Witness for C6: a concrete `beginJob` event moves a pending job
forward, and along the same event the completed job at id 1 is
untouched. -/
theorem c6_witness :
    ForwardMove c6PendingJob
      { c6PendingJob with status := .processing, startedAt := some 5 } ∧
    (QState.mk (setJob c6State 0
        { c6PendingJob with status := .processing, startedAt := some 5 })
      (c6State.scheduled.erase 0) (insert 0 c6State.running)).jobs 1 = some c6DoneJob :=
  ⟨(c6_status_forward_only c5Cfg).1 c6State _ c6StateInv c6Step 0 c6PendingJob
      { c6PendingJob with status := .processing, startedAt := some 5 } rfl rfl (by decide),
   (c6_status_forward_only c5Cfg).2 c6State _ c6StateInv
      (Relation.ReflTransGen.single c6Step) 1 c6DoneJob rfl trivial⟩

/-! ## C7 -/

theorem mem_upsertExec (l : List Execution) (e x : Execution)
    (h : x ∈ upsertExec l e) : x = e ∨ x ∈ l := by
  induction l with
  | nil =>
    simp [upsertExec] at h
    exact Or.inl h
  | cons y ys ih =>
    simp only [upsertExec] at h
    by_cases hy : y.executionId = e.executionId
    · rw [if_pos hy] at h
      rcases List.mem_cons.mp h with rfl | hmem
      · exact Or.inl rfl
      · exact Or.inr (List.mem_cons_of_mem _ hmem)
    · rw [if_neg hy] at h
      rcases List.mem_cons.mp h with rfl | hmem
      · exact Or.inr (List.mem_cons_self _ _)
      · rcases ih hmem with h' | h'
        · exact Or.inl h'
        · exact Or.inr (List.mem_cons_of_mem _ h')

/-- **C7**: `saveExecution` leaves the store unchanged on an execution
with a missing id or zero steps, and preserves the invariant that the
store never contains an execution with zero steps. -/
theorem c7_no_empty_execution_persisted (store : List Execution) (e : Execution) :
    ((e.executionId = "" ∨ e.steps = []) → saveExecution store e = store) ∧
    ((∀ x ∈ store, x.steps ≠ []) → ∀ x ∈ saveExecution store e, x.steps ≠ []) := by
  constructor
  · intro h
    have hcond : (e.executionId = "" || e.steps.isEmpty) = true := by
      rcases h with h | h
      · simp [h]
      · simp [h]
    simp [saveExecution, hcond]
  · intro hstore x hx
    by_cases hcond : (e.executionId = "" || e.steps.isEmpty) = true
    · rw [saveExecution, if_pos hcond] at hx
      exact hstore x hx
    · rw [saveExecution, if_neg hcond] at hx
      rcases mem_upsertExec store e x hx with rfl | hmem
      · intro habs
        apply hcond
        simp [habs]
      · exact hstore x hmem

/-- Witness for C7: a zero-step execution is rejected and the
no-empty-executions invariant survives a valid upsert. -/
theorem c7_witness :
    saveExecution [c7GoodExec] c7EmptyExec = [c7GoodExec] ∧
    (∀ x ∈ saveExecution [c7GoodExec] c7GoodExec, x.steps ≠ []) :=
  ⟨(c7_no_empty_execution_persisted [c7GoodExec] c7EmptyExec).1 (Or.inr rfl),
   (c7_no_empty_execution_persisted [c7GoodExec] c7GoodExec).2
     (by intro x hx; rcases List.mem_singleton.mp hx with rfl; intro h; cases h)⟩

/-! ## C8 -/

theorem steps_applyOp (s : XRayState) (op : XOp) :
    (applyOp s op).execution.steps = s.execution.steps ++ completedBy s op := by
  cases op with
  | start name input metadata now =>
    simp [applyOp, startStep, completedBy]
  | endS name output now =>
    cases h : mapGet s.activeSteps name with
    | none => simp [applyOp, endStep, completedBy, h]
    | some st => simp [applyOp, endStep, completedBy, h]
  | errS name errMsg now =>
    cases h : mapGet s.activeSteps name with
    | none => simp [applyOp, errorStep, completedBy, h]
    | some st => simp [applyOp, errorStep, completedBy, h]
  | logS name input output metadata now =>
    simp [applyOp, logStep, completedBy]

theorem steps_applyOps (ops : List XOp) : ∀ s : XRayState,
    (applyOps s ops).execution.steps = s.execution.steps ++ opCompletions s ops := by
  induction ops with
  | nil => intro s; simp [applyOps, opCompletions]
  | cons op rest ih =>
    intro s
    have h1 : applyOps s (op :: rest) = applyOps (applyOp s op) rest := rfl
    rw [h1, ih (applyOp s op), steps_applyOp, opCompletions, List.append_assoc]

/-- **C8**: `end(finalOutcome)` stamps `endedAt`, stores the outcome,
and returns an execution whose step list is exactly the initial steps
plus the steps completed by the call sequence, in completion order —
independent of whatever is still sitting in the active-steps map, which
is therefore dropped. -/
theorem c8_end_returns_completed_steps (s : XRayState) (ops : List XOp)
    (fo : JsonV) (now : Int) :
    (endExec (applyOps s ops) fo now).endedAt = some now ∧
    (endExec (applyOps s ops) fo now).finalOutcome = fo ∧
    (endExec (applyOps s ops) fo now).steps = s.execution.steps ++ opCompletions s ops ∧
    (∀ (act : List (String × Step)) (pend : List String),
      endExec { applyOps s ops with activeSteps := act, pendingReasoningSteps := pend }
          fo now =
        endExec (applyOps s ops) fo now) := by
  refine ⟨rfl, rfl, ?_, fun act pend => rfl⟩
  show (applyOps s ops).execution.steps = _
  exact steps_applyOps ops s

/-- Witness for C8: end of a concrete session returns exactly the two
completed steps in completion order and ignores the dangling active
step. -/
theorem c8_witness :
    (endExec (applyOps (mkXRay "e" .jsUndefined 0) c8Ops) (.str "done") 9).steps =
      opCompletions (mkXRay "e" .jsUndefined 0) c8Ops ∧
    (endExec { applyOps (mkXRay "e" .jsUndefined 0) c8Ops with
        activeSteps := []
        pendingReasoningSteps := [] } (.str "done") 9) =
      endExec (applyOps (mkXRay "e" .jsUndefined 0) c8Ops) (.str "done") 9 :=
  ⟨(c8_end_returns_completed_steps (mkXRay "e" .jsUndefined 0) c8Ops (.str "done") 9).2.2.1,
   (c8_end_returns_completed_steps (mkXRay "e" .jsUndefined 0) c8Ops (.str "done") 9).2.2.2 [] []⟩

/-! ## C9 -/

/-- **C9**: the recovery scan resubmits exactly the durable rows whose
status is `pending` or `processing`, each as a fresh pending in-memory
job that preserves the row's stored attempt count. -/
theorem c9_recovery_exactly_unfinished (db : List DbJobRow) :
    (∀ j : JobState, j ∈ loadPendingJobs db ↔
      ∃ r ∈ db, (r.status = .pending ∨ r.status = .processing) ∧ j = rowToMemJob r) ∧
    (∀ r : DbJobRow, (rowToMemJob r).attempt = r.attempts ∧
      (rowToMemJob r).status = .pending ∧
      (rowToMemJob r).id = r.id) := by
  constructor
  · intro j
    constructor
    · intro hj
      obtain ⟨r, hr, hmap⟩ := List.mem_map.mp hj
      obtain ⟨hmem, hpred⟩ := List.mem_filter.mp hr
      refine ⟨r, hmem, ?_, hmap.symm⟩
      simpa using hpred
    · rintro ⟨r, hmem, hpred, rfl⟩
      apply List.mem_map.mpr
      refine ⟨r, List.mem_filter.mpr ⟨hmem, ?_⟩, rfl⟩
      simpa using hpred
  · intro r
    exact ⟨rfl, rfl, rfl⟩

/-- Witness for C9 on a four-row table: the processing row (attempt 3)
is resubmitted with its attempt preserved; the completed row is not. -/
theorem c9_witness :
    rowToMemJob c9Row2 ∈ loadPendingJobs c9Rows ∧
    ¬ (rowToMemJob c9Row3 ∈ loadPendingJobs c9Rows) :=
  ⟨((c9_recovery_exactly_unfinished c9Rows).1 _).mpr
      ⟨c9Row2, by simp [c9Rows], Or.inr rfl, rfl⟩,
   fun h => by
     obtain ⟨r, hmem, hpred, heq⟩ := ((c9_recovery_exactly_unfinished c9Rows).1 _).mp h
     simp [c9Rows] at hmem
     rcases hmem with rfl | rfl | rfl | rfl
     · exact absurd (congrArg JobState.id heq) (by decide)
     · exact absurd (congrArg JobState.attempt heq) (by decide)
     · rcases hpred with h' | h' <;> exact absurd h' (by decide)
     · exact absurd (congrArg JobState.id heq) (by decide)⟩

/-! ## C10 -/

/-- **C10**: when no execution row matches, the database-backed
`enqueue` still returns the fresh job id, stores the in-memory job and
submits it to the pool, but persists nothing: the job table, the
recovery scan over it and the database stats are all unchanged. -/
theorem c10_enqueue_skips_persistence (jobs : List (String × JobState))
    (scheduled : List String) (execRows : List DbExecRow) (dbJobs : List DbJobRow)
    (eid sn jid : String) (now : Int)
    (hmissing : execRows.find? (fun r => r.executionId = eid) = none) :
    (enqueue jobs scheduled execRows dbJobs eid sn jid now).jobId = jid ∧
    (enqueue jobs scheduled execRows dbJobs eid sn jid now).jobs =
      jobs ++ [(jid, initJob jid eid sn now)] ∧
    (enqueue jobs scheduled execRows dbJobs eid sn jid now).scheduled =
      scheduled ++ [jid] ∧
    (enqueue jobs scheduled execRows dbJobs eid sn jid now).dbJobs = dbJobs ∧
    loadPendingJobs (enqueue jobs scheduled execRows dbJobs eid sn jid now).dbJobs =
      loadPendingJobs dbJobs ∧
    getStatsFromDatabase (enqueue jobs scheduled execRows dbJobs eid sn jid now).dbJobs =
      getStatsFromDatabase dbJobs := by
  refine ⟨rfl, ?_, ?_, ?_, ?_, ?_⟩ <;> simp [enqueue, hmissing]

/-- Witness for C10: enqueueing against an unknown execution id leaves
the job table (and hence stats and the recovery scan) unchanged while
the in-memory pool receives the job. -/
theorem c10_witness :
    (enqueue [] [] c10ExecRows c9Rows "missing-exec" "s" "uuid-1" 0).jobId = "uuid-1" ∧
    (enqueue [] [] c10ExecRows c9Rows "missing-exec" "s" "uuid-1" 0).jobs =
      [("uuid-1", initJob "uuid-1" "missing-exec" "s" 0)] ∧
    (enqueue [] [] c10ExecRows c9Rows "missing-exec" "s" "uuid-1" 0).scheduled = ["uuid-1"] ∧
    (enqueue [] [] c10ExecRows c9Rows "missing-exec" "s" "uuid-1" 0).dbJobs = c9Rows ∧
    loadPendingJobs (enqueue [] [] c10ExecRows c9Rows "missing-exec" "s" "uuid-1" 0).dbJobs =
      loadPendingJobs c9Rows ∧
    getStatsFromDatabase
        (enqueue [] [] c10ExecRows c9Rows "missing-exec" "s" "uuid-1" 0).dbJobs =
      getStatsFromDatabase c9Rows :=
  c10_enqueue_skips_persistence [] [] c10ExecRows c9Rows "missing-exec" "s" "uuid-1" 0 rfl
